import Mathlib

/-!
Verification development for the bagalytics limit-order ingestion and
bucketing engine (the route handler around parseOrderAccount,
processOrders and bucketByPrice).

Modelling conventions:
* JavaScript numbers appearing in price and volume arithmetic are modelled
  as exact rationals; raw u64 amounts are modelled as natural numbers.
* Buffer.subarray clamps out-of-range indices, BN of an empty buffer is 0,
  and the PublicKey constructor left-pads inputs shorter than 32 bytes with
  zero bytes; these platform behaviours are modelled explicitly so that the
  decoder is evaluated exactly as the source runs it.
* External collaborators (mint-address syntax validation, getMint decimal
  lookup, the two getProgramAccounts scans, the wall clock) are passed in
  as explicit parameters.
* The per-request decimalsCache memoizes a pure lookup function, so decimal
  resolution is modelled as that lookup with the default-on-failure
  fallback applied directly.
* JavaScript division is total on floats; in the rational model division by
  zero is also total (with quotient 0), so inclusion and counting facts are
  insensitive to that difference.
-/

namespace Bagalytics

/-- The two order sides. -/
inductive Side where
  | buy
  | sell
deriving DecidableEq, Repr

/-- DEFAULT_SPL_TOKEN_DECIMALS from the route module. -/
def DEFAULT_SPL_TOKEN_DECIMALS : Nat := 9

/-- PRICE_BUCKET_PERCENTAGE, the 5 percent bucket width. -/
def PRICE_BUCKET_PERCENTAGE : ℚ := 5 / 100

/-- BAGS_CREATOR_FEE_RATE, the 1 percent creator fee rate. -/
def BAGS_CREATOR_FEE_RATE : ℚ := 1 / 100

/-- CACHE_TTL in milliseconds. -/
def CACHE_TTL : Nat := 60000

/-- INPUT_MINT_OFFSET of the account layout. -/
def INPUT_MINT_OFFSET : Nat := 40

/-- OUTPUT_MINT_OFFSET of the account layout. -/
def OUTPUT_MINT_OFFSET : Nat := 72

/-- MAKING_AMOUNT_OFFSET of the account layout. -/
def MAKING_AMOUNT_OFFSET : Nat := 224

/-- TAKING_AMOUNT_OFFSET of the account layout. -/
def TAKING_AMOUNT_OFFSET : Nat := 232

/-- Buffer.subarray with clamping semantics: indices past the end of the
buffer are clamped, so the result can be shorter than requested or empty. -/
def subarrayClamped (data : List Nat) (start stop : Nat) : List Nat :=
  (data.take stop).drop start

/-- Little-endian multi-byte decode, as BN(buffer, le). An empty byte list
decodes to 0, exactly as BN does. -/
def leDecode (bytes : List Nat) : Nat :=
  bytes.foldr (fun b acc => acc * 256 + b) 0

/-- The PublicKey constructor accepts byte inputs of length at most 32 and
left-pads shorter inputs with zero bytes when serialising. -/
def pubkeyZeroPad (bytes : List Nat) : List Nat :=
  List.replicate (32 - bytes.length) 0 ++ bytes

/-- Result of parseOrderAccount at the byte level: the two mint fields as
32-byte values, and the two u64 amounts. -/
structure DecodedOrder where
  publicKey : String
  inputMintBytes : List Nat
  outputMintBytes : List Nat
  makingAmount : Nat
  takingAmount : Nat
deriving DecidableEq, Repr

/-- parseOrderAccount from the route module. It performs no length check:
each field is read by subarray (which clamps) and then decoded, so the
function is total over buffers of every length. -/
def parseOrderAccount (publicKey : String) (data : List Nat) : DecodedOrder :=
  { publicKey := publicKey
    inputMintBytes :=
      pubkeyZeroPad (subarrayClamped data INPUT_MINT_OFFSET (INPUT_MINT_OFFSET + 32))
    outputMintBytes :=
      pubkeyZeroPad (subarrayClamped data OUTPUT_MINT_OFFSET (OUTPUT_MINT_OFFSET + 32))
    makingAmount :=
      leDecode (subarrayClamped data MAKING_AMOUNT_OFFSET (MAKING_AMOUNT_OFFSET + 8))
    takingAmount :=
      leDecode (subarrayClamped data TAKING_AMOUNT_OFFSET (TAKING_AMOUNT_OFFSET + 8)) }

/-- The map over fetched accounts: accounts.map(parseOrderAccount ...). There
is no per-account exception handling around this map. -/
def decodeBatch (accounts : List (String × List Nat)) : List DecodedOrder :=
  accounts.map fun a => parseOrderAccount a.1 a.2

/-- ParsedLimitOrder as used by the processing pipeline, with mints already
rendered as base58 strings. -/
structure ParsedLimitOrder where
  publicKey : String
  inputMint : String
  outputMint : String
  makingAmount : Nat
  takingAmount : Nat
deriving DecidableEq, Repr

/-- An order after normalization and classification, as pushed onto the
sellOrders and buyOrders arrays inside processOrders. -/
structure NormalizedOrder where
  price : ℚ
  volumeUsd : ℚ
deriving DecidableEq, Repr

/-- OrderBucket from the route module. -/
structure OrderBucket where
  priceLevel : ℚ
  side : Side
  orderCount : Nat
  totalVolumeUsd : ℚ
  feePotentialUsd : ℚ
  cumulativeFeesIfSweep : ℚ
deriving DecidableEq, Repr

/-- Decimal resolution: getMint success gives the resolved decimals, any
failure falls back to DEFAULT_SPL_TOKEN_DECIMALS. The per-request
decimalsCache memoizes this pure lookup and is therefore transparent. -/
def resolveDecimals (lookup : String → Option Nat) (mint : String) : Nat :=
  (lookup mint).getD DEFAULT_SPL_TOKEN_DECIMALS

/-- The per-order body of the processOrders loop: normalize both amounts by
their mints decimals, then classify against the target mint. Returns none
when neither mint matches (the order is discarded). -/
def classifyOrder (lookup : String → Option Nat) (targetTokenMint : String)
    (currentPriceUsd : ℚ) (o : ParsedLimitOrder) : Option (Side × NormalizedOrder) :=
  let inputDecimals := resolveDecimals lookup o.inputMint
  let outputDecimals := resolveDecimals lookup o.outputMint
  let makingAmountNormalized : ℚ := (o.makingAmount : ℚ) / 10 ^ inputDecimals
  let takingAmountNormalized : ℚ := (o.takingAmount : ℚ) / 10 ^ outputDecimals
  if o.inputMint = targetTokenMint then
    some (Side.sell,
      { price := takingAmountNormalized / makingAmountNormalized,
        volumeUsd := makingAmountNormalized * currentPriceUsd })
  else if o.outputMint = targetTokenMint then
    some (Side.buy,
      { price := makingAmountNormalized / takingAmountNormalized,
        volumeUsd := takingAmountNormalized * currentPriceUsd })
  else
    none

/-- The sellOrders array accumulated by the processOrders loop. -/
def sellNormalized (lookup : String → Option Nat) (orders : List ParsedLimitOrder)
    (targetTokenMint : String) (currentPriceUsd : ℚ) : List NormalizedOrder :=
  orders.filterMap fun o =>
    match classifyOrder lookup targetTokenMint currentPriceUsd o with
    | some (Side.sell, n) => some n
    | _ => none

/-- The buyOrders array accumulated by the processOrders loop. -/
def buyNormalized (lookup : String → Option Nat) (orders : List ParsedLimitOrder)
    (targetTokenMint : String) (currentPriceUsd : ℚ) : List NormalizedOrder :=
  orders.filterMap fun o =>
    match classifyOrder lookup targetTokenMint currentPriceUsd o with
    | some (Side.buy, n) => some n
    | _ => none

/-- The bucket key: Math.floor(priceRatio / bucketSize) * bucketSize. -/
def bucketKeyOf (currentPrice : ℚ) (price : ℚ) : ℚ :=
  (((price / currentPrice) / PRICE_BUCKET_PERCENTAGE).floor : ℚ) * PRICE_BUCKET_PERCENTAGE

/-- The freshly created bucket before any accumulation, as inserted by
bucketByPrice when a key is missing from the map. -/
def freshBucket (currentPrice : ℚ) (side : Side) (key : ℚ) : OrderBucket :=
  { priceLevel := currentPrice * key
    side := side
    orderCount := 0
    totalVolumeUsd := 0
    feePotentialUsd := 0
    cumulativeFeesIfSweep := 0 }

/-- One accumulation step on a bucket: increment the count, add the volume,
and recompute the fee potential from the new running total. -/
def accumOrder (order : NormalizedOrder) (b : OrderBucket) : OrderBucket :=
  let v := b.totalVolumeUsd + order.volumeUsd
  { b with
    orderCount := b.orderCount + 1
    totalVolumeUsd := v
    feePotentialUsd := v * BAGS_CREATOR_FEE_RATE }

/-- Map.set on an association list that already holds the key: replace the
value at the first matching key, keeping its position. -/
def setBucket (k : ℚ) (f : OrderBucket → OrderBucket) :
    List (ℚ × OrderBucket) → List (ℚ × OrderBucket)
  | [] => []
  | e :: rest => if e.1 = k then (e.1, f e.2) :: rest else e :: setBucket k f rest

/-- The body of the bucketByPrice loop for one order: create the bucket if
its key is absent (insertion order preserved, new keys appended), then
accumulate the order into the bucket at that key. -/
def bucketStep (currentPrice : ℚ) (side : Side)
    (m : List (ℚ × OrderBucket)) (order : NormalizedOrder) : List (ℚ × OrderBucket) :=
  let key := bucketKeyOf currentPrice order.price
  let m1 :=
    if m.any fun e => e.1 = key then m
    else m ++ [(key, freshBucket currentPrice side key)]
  setBucket key (accumOrder order) m1

/-- The bucketMap after the bucketByPrice loop, in Map insertion order. -/
def bucketEntries (orders : List NormalizedOrder) (currentPrice : ℚ) (side : Side) :
    List (ℚ × OrderBucket) :=
  orders.foldl (bucketStep currentPrice side) []

/-- The final sort of bucketByPrice: sell buckets ascending by priceLevel,
buy buckets descending by priceLevel. -/
def sortBuckets (side : Side) (buckets : List OrderBucket) : List OrderBucket :=
  match side with
  | Side.sell => buckets.insertionSort fun a b => a.priceLevel ≤ b.priceLevel
  | Side.buy => buckets.insertionSort fun a b => b.priceLevel ≤ a.priceLevel

/-- bucketByPrice from the route module: accumulate into the keyed map, then
sort sell buckets ascending and buy buckets descending by priceLevel. -/
def bucketByPrice (orders : List NormalizedOrder) (currentPrice : ℚ) (side : Side) :
    List OrderBucket :=
  sortBuckets side ((bucketEntries orders currentPrice side).map Prod.snd)

/-- The cumulative pass of processOrders: walk the ordered bucket list with a
running total of feePotentialUsd, storing the running total after each
bucket into cumulativeFeesIfSweep. -/
def cumulativePass (acc : ℚ) : List OrderBucket → List OrderBucket
  | [] => []
  | b :: rest =>
    let c := acc + b.feePotentialUsd
    { b with cumulativeFeesIfSweep := c } :: cumulativePass c rest

/-- processOrders from the route module: classify every order, bucket each
side, then run the cumulative pass over each sorted side. -/
def processOrders (lookup : String → Option Nat) (orders : List ParsedLimitOrder)
    (targetTokenMint : String) (currentPriceUsd : ℚ) :
    List OrderBucket × List OrderBucket :=
  let sellOrders := sellNormalized lookup orders targetTokenMint currentPriceUsd
  let buyOrders := buyNormalized lookup orders targetTokenMint currentPriceUsd
  (cumulativePass 0 (bucketByPrice sellOrders currentPriceUsd Side.sell),
   cumulativePass 0 (bucketByPrice buyOrders currentPriceUsd Side.buy))

/-- The price query parameter as parseFloat sees it: absent (the source then
substitutes the string 0), a NaN parse, or a finite number. -/
inductive PriceParam where
  | missing
  | nan
  | num (q : ℚ)
deriving DecidableEq, Repr

/-- The falsiness test applied to the parsed price: a missing parameter
parses to 0, NaN is falsy, and a finite number is falsy exactly when it
is 0. Negative numbers are truthy and are not rejected. -/
def priceRejected : PriceParam → Bool
  | PriceParam.missing => true
  | PriceParam.nan => true
  | PriceParam.num q => decide (q = 0)

/-- The numeric value carried past validation. Validation rejects the
missing and nan cases, so the 0 returned for them here is never used. -/
def parsedPrice : PriceParam → ℚ
  | PriceParam.missing => 0
  | PriceParam.nan => 0
  | PriceParam.num q => q

/-- The module-level ordersCache slot. -/
structure OrdersCache where
  data : List ParsedLimitOrder
  timestamp : Nat
  tokenMint : String
deriving DecidableEq, Repr

/-- The response of the GET handler, with the 400 branches distinguished
from the success payload. -/
inductive GetResult where
  | badRequest (error : String)
  | ok (sellBuckets buyBuckets : List OrderBucket)
deriving DecidableEq, Repr

/-- One GET evaluation: the response, the cache slot after the request, and
whether the account fetch ran. -/
structure GetOutcome where
  response : GetResult
  cacheAfter : Option OrdersCache
  didFetch : Bool
deriving DecidableEq, Repr

/-- Map.set on the dedup map when the key is already present: replace the
value at the first matching key, keeping its position. -/
def setOrder (k : String) (o : ParsedLimitOrder) :
    List ParsedLimitOrder → List ParsedLimitOrder
  | [] => []
  | p :: rest => if p.publicKey = k then o :: rest else p :: setOrder k o rest

/-- Map.set for the dedup pass: replace when the key is present, append
otherwise. -/
def mapSet (m : List ParsedLimitOrder) (o : ParsedLimitOrder) : List ParsedLimitOrder :=
  if m.any fun p => p.publicKey = o.publicKey then setOrder o.publicKey o m
  else m ++ [o]

/-- The dedup pass of the GET handler: insert sell results then buy results
into one Map keyed by publicKey and read the values back out. -/
def dedupeOrders (orders : List ParsedLimitOrder) : List ParsedLimitOrder :=
  orders.foldl mapSet []

/-- The fresh-fetch path of the GET handler: dedupe the two fetch results,
store the snapshot, and process. -/
def fetchPath (lookup : String → Option Nat)
    (sellFetched buyFetched : List ParsedLimitOrder) (now : Nat)
    (tokenMint : String) (currentPriceUsd : ℚ) : GetOutcome :=
  let orders := dedupeOrders (sellFetched ++ buyFetched)
  let r := processOrders lookup orders tokenMint currentPriceUsd
  { response := GetResult.ok r.1 r.2
    cacheAfter := some { data := orders, timestamp := now, tokenMint := tokenMint }
    didFetch := true }

/-- The GET handler: validate the mint, validate the price, then either
serve the fresh cached snapshot without fetching or fetch, dedupe, cache
and process. External collaborators are explicit parameters: isValidMint
models PublicKey syntax validation, lookup models getMint, sellFetched and
buyFetched model the two getProgramAccounts scans, now models Date.now(). -/
def GET (isValidMint : String → Bool) (lookup : String → Option Nat)
    (sellFetched buyFetched : List ParsedLimitOrder)
    (cache : Option OrdersCache) (now : Nat)
    (tokenMint : String) (priceParam : PriceParam) : GetOutcome :=
  if isValidMint tokenMint = false then
    { response := GetResult.badRequest "Invalid token mint address"
      cacheAfter := cache
      didFetch := false }
  else if priceRejected priceParam then
    { response := GetResult.badRequest "Price parameter required"
      cacheAfter := cache
      didFetch := false }
  else
    let currentPriceUsd := parsedPrice priceParam
    match cache with
    | some c =>
      if c.tokenMint = tokenMint ∧ now - c.timestamp < CACHE_TTL then
        let r := processOrders lookup c.data tokenMint currentPriceUsd
        { response := GetResult.ok r.1 r.2
          cacheAfter := some c
          didFetch := false }
      else
        fetchPath lookup sellFetched buyFetched now tokenMint currentPriceUsd
    | none =>
      fetchPath lookup sellFetched buyFetched now tokenMint currentPriceUsd

/-- Running totals of a list, starting from acc: the reference shape of the
cumulative pass. -/
def prefixSums (acc : ℚ) : List ℚ → List ℚ
  | [] => []
  | x :: xs => (acc + x) :: prefixSums (acc + x) xs

/-- Total order count held in a bucket map. -/
def countSum (m : List (ℚ × OrderBucket)) : Nat :=
  (m.map fun e => e.2.orderCount).sum

/-- Total volume held in a bucket map. -/
def volSum (m : List (ℚ × OrderBucket)) : ℚ :=
  (m.map fun e => e.2.totalVolumeUsd).sum

/-- The account keys of an order list. -/
def orderKeys (m : List ParsedLimitOrder) : List String :=
  m.map fun p => p.publicKey

/-- A concrete order whose raw making amount is zero, selling the target
mint TGT. -/
def zeroMakingOrder : ParsedLimitOrder :=
  { publicKey := "acct1", inputMint := "TGT", outputMint := "OTHER",
    makingAmount := 0, takingAmount := 5 }

/-- A concrete undersized account buffer: 100 bytes, shorter than every
amount offset and shorter than the output-mint field needs. -/
def undersizedBuf : List Nat := List.replicate 100 7

lemma prefixSums_length (xs : List ℚ) : ∀ acc, (prefixSums acc xs).length = xs.length := by
  induction xs with
  | nil => intro acc; rfl
  | cons x xs ih => intro acc; simp [prefixSums, ih]

lemma cumulativePass_length (l : List OrderBucket) :
    ∀ acc, (cumulativePass acc l).length = l.length := by
  induction l with
  | nil => intro acc; rfl
  | cons b l ih => intro acc; simp [cumulativePass, ih]

lemma cumulativePass_map_fee (l : List OrderBucket) :
    ∀ acc, (cumulativePass acc l).map (fun b => b.feePotentialUsd) =
      l.map fun b => b.feePotentialUsd := by
  induction l with
  | nil => intro acc; rfl
  | cons b l ih => intro acc; simp [cumulativePass, ih]

lemma cumulativePass_map_priceLevel (l : List OrderBucket) :
    ∀ acc, (cumulativePass acc l).map (fun b => b.priceLevel) =
      l.map fun b => b.priceLevel := by
  induction l with
  | nil => intro acc; rfl
  | cons b l ih => intro acc; simp [cumulativePass, ih]

lemma cumulativePass_map_orderCount (l : List OrderBucket) :
    ∀ acc, (cumulativePass acc l).map (fun b => b.orderCount) =
      l.map fun b => b.orderCount := by
  induction l with
  | nil => intro acc; rfl
  | cons b l ih => intro acc; simp [cumulativePass, ih]

lemma cumulativePass_map_cumulative (l : List OrderBucket) :
    ∀ acc, (cumulativePass acc l).map (fun b => b.cumulativeFeesIfSweep) =
      prefixSums acc (l.map fun b => b.feePotentialUsd) := by
  induction l with
  | nil => intro acc; rfl
  | cons b l ih => intro acc; simp [cumulativePass, prefixSums, ih]

lemma prefixSums_le_of_mem {xs : List ℚ} (hx : ∀ x ∈ xs, 0 ≤ x) :
    ∀ acc, ∀ y ∈ prefixSums acc xs, acc ≤ y := by
  induction xs with
  | nil => intro acc y hy; simp [prefixSums] at hy
  | cons x xs ih =>
    intro acc y hy
    have hx0 : 0 ≤ x := hx x (by simp)
    have hxs : ∀ z ∈ xs, 0 ≤ z := fun z hz => hx z (by simp [hz])
    rcases List.mem_cons.mp hy with h | h
    · rw [h]; linarith
    · have := ih hxs (acc + x) y h; linarith

lemma prefixSums_sorted {xs : List ℚ} (hx : ∀ x ∈ xs, 0 ≤ x) :
    ∀ acc, List.Sorted (· ≤ ·) (prefixSums acc xs) := by
  induction xs with
  | nil => intro acc; simp [prefixSums]
  | cons x xs ih =>
    intro acc
    have hxs : ∀ z ∈ xs, 0 ≤ z := fun z hz => hx z (by simp [hz])
    rw [prefixSums, List.sorted_cons]
    exact ⟨fun b hb => prefixSums_le_of_mem hxs (acc + x) b hb, ih hxs (acc + x)⟩

lemma prefixSums_get (xs : List ℚ) :
    ∀ (acc : ℚ) (i : Nat) (h : i < (prefixSums acc xs).length),
      (prefixSums acc xs).get ⟨i, h⟩ = acc + ((xs.take (i + 1)).sum) := by
  induction xs with
  | nil => intro acc i h; simp [prefixSums] at h
  | cons x xs ih =>
    intro acc i h
    cases i with
    | zero => simp [prefixSums]
    | succ j =>
      have hj : j < (prefixSums (acc + x) xs).length := by
        simpa [prefixSums] using h
      have := ih (acc + x) j hj
      simp only [prefixSums, List.get_cons_succ, List.take_succ_cons, List.sum_cons]
      rw [this]; ring

lemma setBucket_mem {k : ℚ} {f : OrderBucket → OrderBucket} :
    ∀ {m : List (ℚ × OrderBucket)} {e : ℚ × OrderBucket}, e ∈ setBucket k f m →
      e ∈ m ∨ ∃ e2 ∈ m, e = (e2.1, f e2.2) := by
  intro m
  induction m with
  | nil => intro e he; simp [setBucket] at he
  | cons a m ih =>
    intro e he
    rw [setBucket] at he
    by_cases hk : a.1 = k
    · rw [if_pos hk] at he
      rcases List.mem_cons.mp he with h | h
      · exact Or.inr ⟨a, by simp, h⟩
      · exact Or.inl (List.mem_cons.mpr (Or.inr h))
    · rw [if_neg hk] at he
      rcases List.mem_cons.mp he with h | h
      · exact Or.inl (by simp [h])
      · rcases ih h with h2 | ⟨e2, he2, hee⟩
        · exact Or.inl (List.mem_cons.mpr (Or.inr h2))
        · exact Or.inr ⟨e2, List.mem_cons.mpr (Or.inr he2), hee⟩

lemma setBucket_append_of_absent {k : ℚ} {f : OrderBucket → OrderBucket} {b : OrderBucket} :
    ∀ {m : List (ℚ × OrderBucket)}, (∀ e ∈ m, e.1 ≠ k) →
      setBucket k f (m ++ [(k, b)]) = m ++ [(k, f b)] := by
  intro m
  induction m with
  | nil => intro _; simp [setBucket]
  | cons a m ih =>
    intro h
    have ha : a.1 ≠ k := h a (by simp)
    have hm : ∀ e ∈ m, e.1 ≠ k := fun e he => h e (by simp [he])
    simp only [List.cons_append, setBucket, if_neg ha, List.append_eq]
    rw [ih hm]

lemma setBucket_countSum {k : ℚ} {o : NormalizedOrder} :
    ∀ {m : List (ℚ × OrderBucket)}, (∃ e ∈ m, e.1 = k) →
      countSum (setBucket k (accumOrder o) m) = countSum m + 1 := by
  intro m
  induction m with
  | nil => intro h; simp at h
  | cons a m ih =>
    intro h
    rw [setBucket]
    by_cases hk : a.1 = k
    · rw [if_pos hk]
      simp [countSum, accumOrder]
      omega
    · rw [if_neg hk]
      have h2 : ∃ e ∈ m, e.1 = k := by
        rcases h with ⟨e, he, hek⟩
        rcases List.mem_cons.mp he with rfl | hm
        · exact absurd hek hk
        · exact ⟨e, hm, hek⟩
      simp only [countSum, List.map_cons, List.sum_cons] at ih ⊢
      rw [ih h2]
      omega

lemma setBucket_volSum {k : ℚ} {o : NormalizedOrder} :
    ∀ {m : List (ℚ × OrderBucket)}, (∃ e ∈ m, e.1 = k) →
      volSum (setBucket k (accumOrder o) m) = volSum m + o.volumeUsd := by
  intro m
  induction m with
  | nil => intro h; simp at h
  | cons a m ih =>
    intro h
    rw [setBucket]
    by_cases hk : a.1 = k
    · rw [if_pos hk]
      simp [volSum, accumOrder]
      ring
    · rw [if_neg hk]
      have h2 : ∃ e ∈ m, e.1 = k := by
        rcases h with ⟨e, he, hek⟩
        rcases List.mem_cons.mp he with rfl | hm
        · exact absurd hek hk
        · exact ⟨e, hm, hek⟩
      simp only [volSum, List.map_cons, List.sum_cons] at ih ⊢
      rw [ih h2]
      ring

lemma bucketStep_of_present {c : ℚ} {s : Side} {m : List (ℚ × OrderBucket)}
    {o : NormalizedOrder}
    (h : (m.any fun e => e.1 = bucketKeyOf c o.price) = true) :
    bucketStep c s m o = setBucket (bucketKeyOf c o.price) (accumOrder o) m := by
  simp only [bucketStep, h, if_true]

lemma bucketStep_of_absent {c : ℚ} {s : Side} {m : List (ℚ × OrderBucket)}
    {o : NormalizedOrder}
    (h : (m.any fun e => e.1 = bucketKeyOf c o.price) = false) :
    bucketStep c s m o = m ++
      [(bucketKeyOf c o.price,
        accumOrder o (freshBucket c s (bucketKeyOf c o.price)))] := by
  have habs : ∀ e ∈ m, e.1 ≠ bucketKeyOf c o.price := by
    intro e he
    have := (List.any_eq_false).mp h e he
    simpa using this
  simp only [bucketStep, h]
  rw [if_neg (by simp), setBucket_append_of_absent habs]

lemma bucketStep_countSum (c : ℚ) (s : Side) (m : List (ℚ × OrderBucket))
    (o : NormalizedOrder) : countSum (bucketStep c s m o) = countSum m + 1 := by
  by_cases h : (m.any fun e => e.1 = bucketKeyOf c o.price) = true
  · rw [bucketStep_of_present h]
    have hex : ∃ e ∈ m, e.1 = bucketKeyOf c o.price := by
      have := (List.any_eq_true).mp h
      rcases this with ⟨e, he, hp⟩
      exact ⟨e, he, by simpa using hp⟩
    exact setBucket_countSum hex
  · rw [bucketStep_of_absent (Bool.eq_false_iff.mpr h)]
    simp [countSum, accumOrder, freshBucket]

lemma bucketStep_volSum (c : ℚ) (s : Side) (m : List (ℚ × OrderBucket))
    (o : NormalizedOrder) : volSum (bucketStep c s m o) = volSum m + o.volumeUsd := by
  by_cases h : (m.any fun e => e.1 = bucketKeyOf c o.price) = true
  · rw [bucketStep_of_present h]
    have hex : ∃ e ∈ m, e.1 = bucketKeyOf c o.price := by
      have := (List.any_eq_true).mp h
      rcases this with ⟨e, he, hp⟩
      exact ⟨e, he, by simpa using hp⟩
    exact setBucket_volSum hex
  · rw [bucketStep_of_absent (Bool.eq_false_iff.mpr h)]
    simp [volSum, accumOrder, freshBucket]

lemma foldl_bucketStep_countSum (c : ℚ) (s : Side) :
    ∀ (orders : List NormalizedOrder) (m : List (ℚ × OrderBucket)),
      countSum (orders.foldl (bucketStep c s) m) = countSum m + orders.length := by
  intro orders
  induction orders with
  | nil => intro m; simp
  | cons o orders ih =>
    intro m
    rw [List.foldl_cons, ih, bucketStep_countSum]
    simp; omega

lemma foldl_bucketStep_volSum (c : ℚ) (s : Side) :
    ∀ (orders : List NormalizedOrder) (m : List (ℚ × OrderBucket)),
      volSum (orders.foldl (bucketStep c s) m) =
        volSum m + (orders.map fun o => o.volumeUsd).sum := by
  intro orders
  induction orders with
  | nil => intro m; simp
  | cons o orders ih =>
    intro m
    rw [List.foldl_cons, ih, bucketStep_volSum]
    simp; ring

lemma sortBuckets_perm (side : Side) (l : List OrderBucket) :
    List.Perm (sortBuckets side l) l := by
  cases side with
  | sell => exact List.perm_insertionSort _ l
  | buy => exact List.perm_insertionSort _ l

lemma sortBuckets_sell_sorted (l : List OrderBucket) :
    List.Sorted (fun a b : OrderBucket => a.priceLevel ≤ b.priceLevel)
      (sortBuckets Side.sell l) := by
  exact @List.sorted_insertionSort OrderBucket
    (fun a b => a.priceLevel ≤ b.priceLevel) (fun a b => inferInstance)
    ⟨fun a b => le_total a.priceLevel b.priceLevel⟩
    ⟨fun a b c hab hbc => le_trans hab hbc⟩ l

lemma sortBuckets_buy_sorted (l : List OrderBucket) :
    List.Sorted (fun a b : OrderBucket => b.priceLevel ≤ a.priceLevel)
      (sortBuckets Side.buy l) := by
  exact @List.sorted_insertionSort OrderBucket
    (fun a b => b.priceLevel ≤ a.priceLevel) (fun a b => inferInstance)
    ⟨fun a b => le_total b.priceLevel a.priceLevel⟩
    ⟨fun a b c hab hbc => le_trans hbc hab⟩ l

lemma bucketByPrice_map_sum_count (orders : List NormalizedOrder) (c : ℚ) (s : Side) :
    ((bucketByPrice orders c s).map fun b => b.orderCount).sum = orders.length := by
  have hperm := (sortBuckets_perm s ((bucketEntries orders c s).map Prod.snd)).map
    fun b => b.orderCount
  rw [bucketByPrice, hperm.sum_eq, List.map_map]
  have := foldl_bucketStep_countSum c s orders []
  simpa [bucketEntries, countSum, Function.comp] using this

lemma bucketByPrice_map_sum_vol (orders : List NormalizedOrder) (c : ℚ) (s : Side) :
    ((bucketByPrice orders c s).map fun b => b.totalVolumeUsd).sum =
      (orders.map fun o => o.volumeUsd).sum := by
  have hperm := (sortBuckets_perm s ((bucketEntries orders c s).map Prod.snd)).map
    fun b => b.totalVolumeUsd
  rw [bucketByPrice, hperm.sum_eq, List.map_map]
  have := foldl_bucketStep_volSum c s orders []
  simpa [bucketEntries, volSum, Function.comp] using this

lemma bucketStep_pres {P : OrderBucket → Prop} {c : ℚ} {s : Side}
    {m : List (ℚ × OrderBucket)} {o : NormalizedOrder}
    (hacc : ∀ b, P b → P (accumOrder o b))
    (hfresh : ∀ k, P (accumOrder o (freshBucket c s k)))
    (hm : ∀ e ∈ m, P e.2) :
    ∀ e ∈ bucketStep c s m o, P e.2 := by
  intro e he
  by_cases h : (m.any fun e => e.1 = bucketKeyOf c o.price) = true
  · rw [bucketStep_of_present h] at he
    rcases setBucket_mem he with h2 | ⟨e2, he2, rfl⟩
    · exact hm e h2
    · exact hacc e2.2 (hm e2 he2)
  · rw [bucketStep_of_absent (Bool.eq_false_iff.mpr h)] at he
    rcases List.mem_append.mp he with h2 | h2
    · exact hm e h2
    · rcases List.mem_singleton.mp h2 with rfl
      exact hfresh _

lemma bucketEntries_pres {P : OrderBucket → Prop} {c : ℚ} {s : Side}
    {orders : List NormalizedOrder}
    (hacc : ∀ o ∈ orders, ∀ b, P b → P (accumOrder o b))
    (hfresh : ∀ o ∈ orders, ∀ k, P (accumOrder o (freshBucket c s k))) :
    ∀ e ∈ bucketEntries orders c s, P e.2 := by
  rw [bucketEntries]
  have main : ∀ (l : List NormalizedOrder) (m : List (ℚ × OrderBucket)),
      (∀ o ∈ l, ∀ b, P b → P (accumOrder o b)) →
      (∀ o ∈ l, ∀ k, P (accumOrder o (freshBucket c s k))) →
      (∀ e ∈ m, P e.2) → ∀ e ∈ l.foldl (bucketStep c s) m, P e.2 := by
    intro l
    induction l with
    | nil => intro m _ _ hm; simpa using hm
    | cons o l ih =>
      intro m ha hf hm
      rw [List.foldl_cons]
      refine ih _ (fun o2 ho2 => ha o2 (by simp [ho2])) (fun o2 ho2 => hf o2 (by simp [ho2])) ?_
      exact bucketStep_pres (ha o (by simp)) (hf o (by simp)) hm
  exact main orders [] hacc hfresh (by simp)

lemma bucketByPrice_pres {P : OrderBucket → Prop} {c : ℚ} {s : Side}
    {orders : List NormalizedOrder}
    (hacc : ∀ o ∈ orders, ∀ b, P b → P (accumOrder o b))
    (hfresh : ∀ o ∈ orders, ∀ k, P (accumOrder o (freshBucket c s k))) :
    ∀ b ∈ bucketByPrice orders c s, P b := by
  intro b hb
  rw [bucketByPrice] at hb
  have hb2 := (sortBuckets_perm s _).mem_iff.mp hb
  rcases List.mem_map.mp hb2 with ⟨e, he, rfl⟩
  exact bucketEntries_pres hacc hfresh e he

lemma bucketByPrice_count_pos (orders : List NormalizedOrder) (c : ℚ) (s : Side) :
    ∀ b ∈ bucketByPrice orders c s, 1 ≤ b.orderCount := by
  refine bucketByPrice_pres ?_ ?_
  · intro o _ b hb; simp [accumOrder]
  · intro o _ k; simp [accumOrder]

lemma bucketByPrice_fee_of_vol (orders : List NormalizedOrder) (c : ℚ) (s : Side)
    (hvol : ∀ o ∈ orders, 0 ≤ o.volumeUsd) :
    ∀ b ∈ bucketByPrice orders c s,
      0 ≤ b.totalVolumeUsd ∧ b.feePotentialUsd = b.totalVolumeUsd * BAGS_CREATOR_FEE_RATE := by
  refine bucketByPrice_pres ?_ ?_
  · intro o ho b hb
    have hv := hvol o ho
    have h1 : 0 ≤ b.totalVolumeUsd + o.volumeUsd := by linarith [hb.1]
    exact ⟨by simpa [accumOrder] using h1, by simp [accumOrder]⟩
  · intro o ho k
    have hv := hvol o ho
    exact ⟨by simpa [accumOrder, freshBucket] using hv, by simp [accumOrder, freshBucket]⟩

lemma bucketByPrice_fee_nonneg (orders : List NormalizedOrder) (c : ℚ) (s : Side)
    (hvol : ∀ o ∈ orders, 0 ≤ o.volumeUsd) :
    ∀ b ∈ bucketByPrice orders c s, 0 ≤ b.feePotentialUsd := by
  intro b hb
  obtain ⟨h1, h2⟩ := bucketByPrice_fee_of_vol orders c s hvol b hb
  rw [h2, BAGS_CREATOR_FEE_RATE]
  positivity

lemma setOrder_keys {k : String} {o : ParsedLimitOrder} (hk : o.publicKey = k) :
    ∀ m : List ParsedLimitOrder, orderKeys (setOrder k o m) = orderKeys m := by
  intro m
  induction m with
  | nil => rfl
  | cons p m ih =>
    rw [setOrder]
    by_cases hp : p.publicKey = k
    · rw [if_pos hp]; simp [orderKeys, hk, hp]
    · rw [if_neg hp]; simp only [orderKeys, List.map_cons]
      rw [show (setOrder k o m).map (fun p => p.publicKey) = orderKeys (setOrder k o m) from rfl,
        ih]
      rfl

lemma mapSet_keys_nodup {m : List ParsedLimitOrder} {o : ParsedLimitOrder}
    (h : (orderKeys m).Nodup) : (orderKeys (mapSet m o)).Nodup := by
  rw [mapSet]
  by_cases hany : (m.any fun p => p.publicKey = o.publicKey) = true
  · rw [if_pos (by simpa using hany), setOrder_keys rfl]; exact h
  · rw [if_neg (by simpa using hany)]
    have hnot : o.publicKey ∉ orderKeys m := by
      intro hmem
      rcases List.mem_map.mp hmem with ⟨p, hp, hpk⟩
      exact hany ((List.any_eq_true).mpr ⟨p, hp, by simp [hpk]⟩)
    simp only [orderKeys, List.map_append, List.map_singleton]
    rw [List.nodup_append]
    refine ⟨h, List.nodup_singleton _, ?_⟩
    intro a ha hb
    rw [List.mem_singleton] at hb
    subst hb
    exact hnot ha

lemma mapSet_keys_mem {m : List ParsedLimitOrder} {o : ParsedLimitOrder} {k2 : String} :
    k2 ∈ orderKeys (mapSet m o) ↔ k2 ∈ orderKeys m ∨ k2 = o.publicKey := by
  rw [mapSet]
  by_cases hany : (m.any fun p => p.publicKey = o.publicKey) = true
  · rw [if_pos (by simpa using hany), setOrder_keys rfl]
    have hin : o.publicKey ∈ orderKeys m := by
      rcases (List.any_eq_true).mp hany with ⟨p, hp, hpk⟩
      exact List.mem_map.mpr ⟨p, hp, by simpa using hpk⟩
    constructor
    · exact Or.inl
    · rintro (h | rfl)
      · exact h
      · exact hin
  · rw [if_neg (by simpa using hany)]
    simp [orderKeys]

lemma foldl_mapSet_keys :
    ∀ (l : List ParsedLimitOrder) (m : List ParsedLimitOrder),
      (orderKeys m).Nodup →
      (orderKeys (l.foldl mapSet m)).Nodup ∧
        ∀ k2, k2 ∈ orderKeys (l.foldl mapSet m) ↔ k2 ∈ orderKeys m ∨ k2 ∈ orderKeys l := by
  intro l
  induction l with
  | nil => intro m hm; exact ⟨hm, by simp [orderKeys]⟩
  | cons o l ih =>
    intro m hm
    rw [List.foldl_cons]
    obtain ⟨h1, h2⟩ := ih (mapSet m o) (mapSet_keys_nodup hm)
    refine ⟨h1, fun k2 => ?_⟩
    rw [h2 k2, mapSet_keys_mem]
    simp only [orderKeys, List.map_cons, List.mem_cons]
    tauto

lemma dedupeOrders_keys_nodup (l : List ParsedLimitOrder) :
    (orderKeys (dedupeOrders l)).Nodup :=
  (foldl_mapSet_keys l [] (by simp [orderKeys])).1

lemma dedupeOrders_keys_mem (l : List ParsedLimitOrder) (k2 : String) :
    k2 ∈ orderKeys (dedupeOrders l) ↔ k2 ∈ orderKeys l := by
  have := (foldl_mapSet_keys l [] (by simp [orderKeys])).2 k2
  rw [dedupeOrders, this]
  simp [orderKeys]

lemma bucketByPrice_singleton (o : NormalizedOrder) (c : ℚ) (s : Side) :
    bucketByPrice [o] c s =
      [{ priceLevel := c * bucketKeyOf c o.price
         side := s
         orderCount := 1
         totalVolumeUsd := o.volumeUsd
         feePotentialUsd := o.volumeUsd * BAGS_CREATOR_FEE_RATE
         cumulativeFeesIfSweep := 0 }] := by
  have hfold : bucketEntries [o] c s =
      [(bucketKeyOf c o.price, accumOrder o (freshBucket c s (bucketKeyOf c o.price)))] := by
    simp [bucketEntries, bucketStep, setBucket]
  cases s <;> simp [bucketByPrice, hfold, sortBuckets, accumOrder, freshBucket]

lemma cumulativePass_get (l : List OrderBucket) :
    ∀ (acc : ℚ) (i : Nat) (h : i < (cumulativePass acc l).length),
      ((cumulativePass acc l).get ⟨i, h⟩).cumulativeFeesIfSweep =
        acc + (((cumulativePass acc l).take (i + 1)).map fun b => b.feePotentialUsd).sum := by
  induction l with
  | nil => intro acc i h; simp [cumulativePass] at h
  | cons b l ih =>
    intro acc i h
    cases i with
    | zero => simp [cumulativePass]
    | succ j =>
      have hj : j < (cumulativePass (acc + b.feePotentialUsd) l).length := by
        simpa [cumulativePass] using h
      have := ih (acc + b.feePotentialUsd) j hj
      simp only [cumulativePass, List.get_cons_succ, List.take_succ_cons, List.map_cons,
        List.sum_cons]
      rw [this]; ring

/-- C10: for every list of normalized orders of one side, bucketing conserves
aggregates: the bucket orderCounts sum to the number of input orders, the
bucket totalVolumeUsd values sum to the total input volumeUsd in exact
arithmetic, and every returned bucket holds at least one order. -/
theorem bucketByPrice_conservation (orders : List NormalizedOrder) (currentPrice : ℚ)
    (side : Side) :
    ((bucketByPrice orders currentPrice side).map fun b => b.orderCount).sum = orders.length
    ∧ ((bucketByPrice orders currentPrice side).map fun b => b.totalVolumeUsd).sum =
        (orders.map fun o => o.volumeUsd).sum
    ∧ ∀ b ∈ bucketByPrice orders currentPrice side, 1 ≤ b.orderCount :=
  ⟨bucketByPrice_map_sum_count orders currentPrice side,
   bucketByPrice_map_sum_vol orders currentPrice side,
   bucketByPrice_count_pos orders currentPrice side⟩

/-- Witness for C10 at a concrete two-order input: total count 2, total
volume 800, and the single emitted bucket holds at least one order. -/
theorem bucketByPrice_conservation_witness :
    ((bucketByPrice [⟨91/100, 500⟩, ⟨93/100, 300⟩] 1 Side.buy).map fun b => b.orderCount).sum = 2
    ∧ ((bucketByPrice [⟨91/100, 500⟩, ⟨93/100, 300⟩] 1 Side.buy).map
        fun b => b.totalVolumeUsd).sum = 800 := by
  have h := bucketByPrice_conservation [⟨91/100, 500⟩, ⟨93/100, 300⟩] 1 Side.buy
  refine ⟨h.1, ?_⟩
  rw [h.2.1]
  norm_num

/-- C6: the merge step keyed by account identity retains each account key
exactly once: for every pair of fetch results and every key occurring in
them, the deduplicated merge holds that key exactly once. -/
theorem dedupeOrders_key_unique (sellFetched buyFetched : List ParsedLimitOrder)
    (k : String) (hk : k ∈ orderKeys (sellFetched ++ buyFetched)) :
    (orderKeys (dedupeOrders (sellFetched ++ buyFetched))).count k = 1 := by
  apply List.count_eq_one_of_mem (dedupeOrders_keys_nodup _)
  rw [dedupeOrders_keys_mem]
  exact hk

/-- Witness for C6: an account key present in both fetch results contributes
exactly one order to the merged set. -/
theorem dedupeOrders_key_unique_witness :
    (orderKeys (dedupeOrders
      ([⟨"k1", "a", "b", 1, 2⟩] ++ [⟨"k1", "c", "d", 3, 4⟩]))).count "k1" = 1 :=
  dedupeOrders_key_unique [⟨"k1", "a", "b", 1, 2⟩] [⟨"k1", "c", "d", 3, 4⟩] "k1"
    (by simp [orderKeys])

/-- C7: for orders of one side with non-negative volumes and a positive
current price, the bucket list returned after the cumulative pass is sorted
by priceLevel (ascending for sell, descending for buy),
cumulativeFeesIfSweep is non-decreasing along it, and each bucket's
cumulativeFeesIfSweep is the sum of feePotentialUsd over the buckets up to
and including it. -/
theorem cumulative_sweep_spec (orders : List NormalizedOrder) (currentPrice : ℚ)
    (side : Side) (hvol : ∀ o ∈ orders, 0 ≤ o.volumeUsd) (_hp : 0 < currentPrice)
    (bs : List OrderBucket)
    (hbs : bs = cumulativePass 0 (bucketByPrice orders currentPrice side)) :
    (side = Side.sell →
      List.Sorted (fun a b : OrderBucket => a.priceLevel ≤ b.priceLevel) bs)
    ∧ (side = Side.buy →
      List.Sorted (fun a b : OrderBucket => b.priceLevel ≤ a.priceLevel) bs)
    ∧ List.Sorted (· ≤ ·) (bs.map fun b => b.cumulativeFeesIfSweep)
    ∧ ∀ (i : Nat) (h : i < bs.length),
        (bs.get ⟨i, h⟩).cumulativeFeesIfSweep =
          ((bs.take (i + 1)).map fun b => b.feePotentialUsd).sum := by
  subst hbs
  refine ⟨?_, ?_, ?_, ?_⟩
  · intro hside
    subst hside
    have hs := sortBuckets_sell_sorted
      ((bucketEntries orders currentPrice Side.sell).map Prod.snd)
    have h1 : List.Pairwise (· ≤ ·)
        ((bucketByPrice orders currentPrice Side.sell).map fun b => b.priceLevel) :=
      (List.pairwise_map).mpr hs
    rw [← cumulativePass_map_priceLevel _ 0] at h1
    exact (List.pairwise_map).mp h1
  · intro hside
    subst hside
    have hs := sortBuckets_buy_sorted
      ((bucketEntries orders currentPrice Side.buy).map Prod.snd)
    have h1 : List.Pairwise (fun a b : ℚ => b ≤ a)
        ((bucketByPrice orders currentPrice Side.buy).map fun b => b.priceLevel) :=
      (List.pairwise_map).mpr hs
    rw [← cumulativePass_map_priceLevel _ 0] at h1
    exact (List.pairwise_map).mp h1
  · rw [cumulativePass_map_cumulative]
    apply prefixSums_sorted
    intro x hx
    rcases List.mem_map.mp hx with ⟨b, hb, rfl⟩
    exact bucketByPrice_fee_nonneg orders currentPrice side hvol b hb
  · intro i h
    have := cumulativePass_get (bucketByPrice orders currentPrice side) 0 i h
    rw [this, zero_add]

/-- Witness for C7: one sell order with non-negative volume and price 1;
the cumulative list is sorted and non-decreasing. -/
theorem cumulative_sweep_spec_witness :
    List.Sorted (· ≤ ·)
      ((cumulativePass 0 (bucketByPrice [⟨106/100, 1000⟩] 1 Side.sell)).map
        fun b => b.cumulativeFeesIfSweep) := by
  have h := cumulative_sweep_spec [⟨106/100, 1000⟩] 1 Side.sell
    (by intro o ho; rw [List.mem_singleton] at ho; subst ho; norm_num)
    (by norm_num) _ rfl
  exact h.2.2.1

/-- C4: bucket membership follows the floor formula — a single order lands in
the bucket keyed by floor((price / currentPrice) / 0.05) * 0.05 with
priceLevel = currentPrice * key — and the two reference scenarios hold: a
sell at trigger 1.06 and volume 1000 lands at priceLevel 1.05 with fee 10,
and buys at 0.91 and 0.93 with volumes 500 and 300 share the bucket at
priceLevel 0.90 with orderCount 2, volume 800 and fee 8. -/
theorem bucket_membership_spec :
    (∀ (o : NormalizedOrder) (currentPrice : ℚ) (side : Side),
      bucketByPrice [o] currentPrice side =
        [{ priceLevel := currentPrice *
             ((((o.price / currentPrice) / PRICE_BUCKET_PERCENTAGE).floor : ℚ) *
               PRICE_BUCKET_PERCENTAGE)
           side := side
           orderCount := 1
           totalVolumeUsd := o.volumeUsd
           feePotentialUsd := o.volumeUsd * BAGS_CREATOR_FEE_RATE
           cumulativeFeesIfSweep := 0 }])
    ∧ bucketByPrice [⟨106/100, 1000⟩] 1 Side.sell =
        [{ priceLevel := 105/100, side := Side.sell, orderCount := 1,
           totalVolumeUsd := 1000, feePotentialUsd := 10, cumulativeFeesIfSweep := 0 }]
    ∧ bucketByPrice [⟨91/100, 500⟩, ⟨93/100, 300⟩] 1 Side.buy =
        [{ priceLevel := 90/100, side := Side.buy, orderCount := 2,
           totalVolumeUsd := 800, feePotentialUsd := 8, cumulativeFeesIfSweep := 0 }] := by
  refine ⟨?_, ?_, ?_⟩
  · intro o currentPrice side
    rw [bucketByPrice_singleton]
    simp [bucketKeyOf]
  · norm_num [bucketByPrice, bucketEntries, bucketStep, bucketKeyOf, setBucket, accumOrder,
      freshBucket, sortBuckets, PRICE_BUCKET_PERCENTAGE, BAGS_CREATOR_FEE_RATE, Rat.floor_def',
      List.insertionSort, List.orderedInsert]
  · norm_num [bucketByPrice, bucketEntries, bucketStep, bucketKeyOf, setBucket, accumOrder,
      freshBucket, sortBuckets, PRICE_BUCKET_PERCENTAGE, BAGS_CREATOR_FEE_RATE, Rat.floor_def',
      List.insertionSort, List.orderedInsert]

/-- C5: classification of a decoded order against the target mint: a
matching input mint gives a sell with triggerPrice takingReal / makingReal
and volumeUsd makingReal * currentPriceUsd; otherwise a matching output
mint gives a buy with triggerPrice makingReal / takingReal and volumeUsd
takingReal * currentPriceUsd; an order matching neither is discarded. -/
theorem classifyOrder_spec (lookup : String → Option Nat) (targetTokenMint : String)
    (currentPriceUsd : ℚ) (o : ParsedLimitOrder) :
    (o.inputMint = targetTokenMint →
      classifyOrder lookup targetTokenMint currentPriceUsd o =
        some (Side.sell,
          { price := ((o.takingAmount : ℚ) / 10 ^ resolveDecimals lookup o.outputMint) /
              ((o.makingAmount : ℚ) / 10 ^ resolveDecimals lookup o.inputMint)
            volumeUsd := ((o.makingAmount : ℚ) / 10 ^ resolveDecimals lookup o.inputMint) *
              currentPriceUsd }))
    ∧ (o.inputMint ≠ targetTokenMint → o.outputMint = targetTokenMint →
      classifyOrder lookup targetTokenMint currentPriceUsd o =
        some (Side.buy,
          { price := ((o.makingAmount : ℚ) / 10 ^ resolveDecimals lookup o.inputMint) /
              ((o.takingAmount : ℚ) / 10 ^ resolveDecimals lookup o.outputMint)
            volumeUsd := ((o.takingAmount : ℚ) / 10 ^ resolveDecimals lookup o.outputMint) *
              currentPriceUsd }))
    ∧ (o.inputMint ≠ targetTokenMint → o.outputMint ≠ targetTokenMint →
      classifyOrder lookup targetTokenMint currentPriceUsd o = none) := by
  refine ⟨?_, ?_, ?_⟩
  · intro h
    simp [classifyOrder, h]
  · intro h1 h2
    simp [classifyOrder, h1, h2]
  · intro h1 h2
    simp [classifyOrder, h1, h2]

/-- Witness for C5: an order selling the target mint T is classified as a
sell with the stated trigger price and volume. -/
theorem classifyOrder_spec_witness :
    classifyOrder (fun _ => some 2) "T" 3 ⟨"a", "T", "U", 100, 50⟩ =
      some (Side.sell,
        { price := ((50 : ℚ) / 10 ^ resolveDecimals (fun _ => some 2) "U") /
            ((100 : ℚ) / 10 ^ resolveDecimals (fun _ => some 2) "T")
          volumeUsd := ((100 : ℚ) / 10 ^ resolveDecimals (fun _ => some 2) "T") * 3 }) :=
  (classifyOrder_spec (fun _ => some 2) "T" 3 ⟨"a", "T", "U", 100, 50⟩).1 rfl

/-- C8: a failed decimal lookup falls back to the default constant 9 without
raising an error, a successful lookup is used as resolved, and an order
whose mints all fail resolution is still classified and bucketed — for any
lookup outcome whatsoever, an order whose input mint is the target still
contributes exactly one order to the sell buckets. -/
theorem decimals_fallback_spec (lookup : String → Option Nat) (mint : String)
    (o : ParsedLimitOrder) (targetTokenMint : String) (currentPriceUsd : ℚ) :
    (lookup mint = none → resolveDecimals lookup mint = DEFAULT_SPL_TOKEN_DECIMALS
      ∧ resolveDecimals lookup mint = 9)
    ∧ (∀ d, lookup mint = some d → resolveDecimals lookup mint = d)
    ∧ (o.inputMint = targetTokenMint →
      ((processOrders lookup [o] targetTokenMint currentPriceUsd).1.map
        fun b => b.orderCount).sum = 1) := by
  refine ⟨?_, ?_, ?_⟩
  · intro h
    rw [resolveDecimals, h]
    exact ⟨rfl, rfl⟩
  · intro d h
    rw [resolveDecimals, h]
    rfl
  · intro h
    have h1 : (sellNormalized lookup [o] targetTokenMint currentPriceUsd).length = 1 := by
      simp [sellNormalized, classifyOrder, h]
    have h2 : (processOrders lookup [o] targetTokenMint currentPriceUsd).1 =
        cumulativePass 0 (bucketByPrice
          (sellNormalized lookup [o] targetTokenMint currentPriceUsd)
          currentPriceUsd Side.sell) := rfl
    rw [h2, cumulativePass_map_orderCount, bucketByPrice_map_sum_count, h1]

/-- Witness for C8: with a lookup that always fails, the default 9 is used
and an order on the target mint is still bucketed. -/
theorem decimals_fallback_spec_witness :
    resolveDecimals (fun _ => none) "m" = 9
    ∧ ((processOrders (fun _ => none) [⟨"a", "T", "U", 5, 7⟩] "T" 1).1.map
        fun b => b.orderCount).sum = 1 :=
  ⟨((decimals_fallback_spec (fun _ => none) "m" ⟨"a", "T", "U", 5, 7⟩ "T" 1).1 rfl).2,
   (decimals_fallback_spec (fun _ => none) "m" ⟨"a", "T", "U", 5, 7⟩ "T" 1).2.2 rfl⟩

/-- C1 (evidence of divergence): an order with decoded making amount zero is
NOT excluded from bucketing by processOrders — it is pushed as a sell order
and contributes one order to a sell bucket. In IEEE semantics the division
takingReal / 0 yields Infinity and the bucket lands at an infinite key; in
this rational model the quotient is 0; in both semantics the order is
bucketed rather than excluded as the spec requires. -/
theorem processOrders_zeroMaking_included :
    ((processOrders (fun _ => none) [zeroMakingOrder] "TGT" 1).1.map
      fun b => b.orderCount).sum = 1
    ∧ (processOrders (fun _ => none) [zeroMakingOrder] "TGT" 1).1 ≠ [] := by
  have h1 : (sellNormalized (fun _ => none) [zeroMakingOrder] "TGT" 1).length = 1 := by
    simp [sellNormalized, classifyOrder, zeroMakingOrder]
  have h2 : (processOrders (fun _ => none) [zeroMakingOrder] "TGT" 1).1 =
      cumulativePass 0 (bucketByPrice
        (sellNormalized (fun _ => none) [zeroMakingOrder] "TGT" 1) 1 Side.sell) := rfl
  have hsum : ((processOrders (fun _ => none) [zeroMakingOrder] "TGT" 1).1.map
      fun b => b.orderCount).sum = 1 := by
    rw [h2, cumulativePass_map_orderCount, bucketByPrice_map_sum_count, h1]
  refine ⟨hsum, ?_⟩
  intro hemp
  rw [hemp] at hsum
  simp at hsum

/-- C3 (evidence of divergence): decoding an undersized 100-byte account
buffer does not fail — parseOrderAccount is total, the amount subarrays are
clamped to empty and decode to 0, and the batch map keeps the garbage
record, so nothing identifies or skips the offending account. -/
theorem parseOrderAccount_undersized_silent :
    (parseOrderAccount "badAccount" undersizedBuf).makingAmount = 0
    ∧ (parseOrderAccount "badAccount" undersizedBuf).takingAmount = 0
    ∧ decodeBatch [("badAccount", undersizedBuf)] =
        [parseOrderAccount "badAccount" undersizedBuf] := by
  refine ⟨by decide, by decide, rfl⟩

/-- C2 counterexample: a request with a syntactically valid mint and the
strictly negative price -1 is NOT rejected — the handler proceeds to the
fetch (didFetch is true) and returns a success payload, although the claim
requires every non-positive price to be rejected with HTTP 400 before any
external call. -/
theorem GET_negative_price_not_rejected :
    (GET (fun _ => true) (fun _ => none) [] [] none 0 "T" (PriceParam.num (-1))).didFetch
      = true
    ∧ (GET (fun _ => true) (fun _ => none) [] [] none 0 "T" (PriceParam.num (-1))).response
      = GetResult.ok [] [] := by
  have hpr : priceRejected (PriceParam.num (-1)) = false := by
    rw [priceRejected, decide_eq_false_iff_not]
    norm_num
  constructor <;>
    simp [GET, hpr, fetchPath, dedupeOrders, processOrders, sellNormalized, buyNormalized,
      bucketByPrice, bucketEntries, sortBuckets, cumulativePass, List.insertionSort,
      parsedPrice]

/-- C2 amended: a malformed mint, or a price that is missing or parses to 0
or NaN, is rejected immediately as a 400 request error with the cache
untouched and no dependence on any external collaborator (no fetch, no
decimal lookup); a valid mint with a positive price is never rejected. A
strictly negative price, however, is NOT rejected (see the
counterexample). -/
theorem GET_validation_spec (iv : String → Bool) (lookup : String → Option Nat)
    (sf bf : List ParsedLimitOrder) (cache : Option OrdersCache) (now : Nat)
    (tokenMint : String) (p : PriceParam) :
    ((iv tokenMint = false ∨ priceRejected p = true) →
      (∃ msg, GET iv lookup sf bf cache now tokenMint p =
          { response := GetResult.badRequest msg, cacheAfter := cache, didFetch := false })
      ∧ ∀ (lookup2 : String → Option Nat) (sf2 bf2 : List ParsedLimitOrder),
          GET iv lookup sf bf cache now tokenMint p =
            GET iv lookup2 sf2 bf2 cache now tokenMint p)
    ∧ (iv tokenMint = true → ∀ q : ℚ, 0 < q → p = PriceParam.num q →
        ∃ s b, (GET iv lookup sf bf cache now tokenMint p).response = GetResult.ok s b) := by
  constructor
  · intro hrej
    by_cases hiv : iv tokenMint = false
    · exact ⟨⟨"Invalid token mint address", by simp [GET, hiv]⟩,
        fun lookup2 sf2 bf2 => by simp [GET, hiv]⟩
    · have hivt : iv tokenMint = true := by
        cases hb : iv tokenMint
        · exact absurd hb hiv
        · rfl
      have hpr : priceRejected p = true := by
        rcases hrej with h | h
        · exact absurd h hiv
        · exact h
      exact ⟨⟨"Price parameter required", by simp [GET, hivt, hpr]⟩,
        fun lookup2 sf2 bf2 => by simp [GET, hivt, hpr]⟩
  · intro hivt q hq hp
    subst hp
    have hpr : priceRejected (PriceParam.num q) = false := by
      rw [priceRejected, decide_eq_false_iff_not]
      exact ne_of_gt hq
    cases cache with
    | none =>
      refine ⟨(processOrders lookup (dedupeOrders (sf ++ bf)) tokenMint q).1,
        (processOrders lookup (dedupeOrders (sf ++ bf)) tokenMint q).2, ?_⟩
      simp [GET, hivt, hpr, fetchPath, parsedPrice]
    | some c =>
      by_cases hfresh : c.tokenMint = tokenMint ∧ now - c.timestamp < CACHE_TTL
      · refine ⟨(processOrders lookup c.data tokenMint q).1,
          (processOrders lookup c.data tokenMint q).2, ?_⟩
        simp [GET, hivt, hpr, hfresh, parsedPrice]
      · refine ⟨(processOrders lookup (dedupeOrders (sf ++ bf)) tokenMint q).1,
          (processOrders lookup (dedupeOrders (sf ++ bf)) tokenMint q).2, ?_⟩
        simp [GET, hivt, hpr, hfresh, fetchPath, parsedPrice]

/-- Witness for the amended C2: a request whose price parses to 0 is
rejected as a 400 with the cache untouched. -/
theorem GET_validation_spec_witness :
    ∃ msg, GET (fun _ => true) (fun _ => none) [] [] none 0 "T" (PriceParam.num 0) =
      { response := GetResult.badRequest msg, cacheAfter := none, didFetch := false } :=
  ((GET_validation_spec (fun _ => true) (fun _ => none) [] [] none 0 "T"
    (PriceParam.num 0)).1 (Or.inr (by rw [priceRejected]; simp))).1

/-- C9: past validation, a stored snapshot for the requested mint younger
than the 60 second TTL short-circuits the fetch — the stored orders are
used verbatim and the cache slot is returned unchanged (never mutated in
place); in every other case the fetch runs and the single slot is replaced
wholesale by a snapshot for the requested mint, evicting whatever mint was
stored before. -/
theorem ordersCache_ttl_spec (iv : String → Bool) (lookup : String → Option Nat)
    (sf bf : List ParsedLimitOrder) (cache : Option OrdersCache) (now : Nat)
    (tokenMint : String) (p : PriceParam)
    (hiv : iv tokenMint = true) (hpr : priceRejected p = false) :
    (∀ c, cache = some c → c.tokenMint = tokenMint → now - c.timestamp < CACHE_TTL →
      GET iv lookup sf bf cache now tokenMint p =
        { response := GetResult.ok
            (processOrders lookup c.data tokenMint (parsedPrice p)).1
            (processOrders lookup c.data tokenMint (parsedPrice p)).2
          cacheAfter := cache
          didFetch := false })
    ∧ ((∀ c, cache = some c → ¬(c.tokenMint = tokenMint ∧ now - c.timestamp < CACHE_TTL)) →
      GET iv lookup sf bf cache now tokenMint p =
        { response := GetResult.ok
            (processOrders lookup (dedupeOrders (sf ++ bf)) tokenMint (parsedPrice p)).1
            (processOrders lookup (dedupeOrders (sf ++ bf)) tokenMint (parsedPrice p)).2
          cacheAfter := some { data := dedupeOrders (sf ++ bf), timestamp := now,
                               tokenMint := tokenMint }
          didFetch := true }) := by
  constructor
  · rintro c rfl hcm hct
    simp [GET, hiv, hpr, hcm, hct]
  · intro hstale
    cases cache with
    | none => simp [GET, hiv, hpr, fetchPath]
    | some c =>
      have hc := hstale c rfl
      simp [GET, hiv, hpr, hc, fetchPath]

/-- Witness for C9: a snapshot for mint T captured 5 ms ago serves a request
for T without fetching, leaving the slot unchanged. -/
theorem ordersCache_ttl_spec_witness :
    GET (fun _ => true) (fun _ => none) [] [] (some ⟨[], 5, "T"⟩) 10 "T"
      (PriceParam.num 1) =
      { response := GetResult.ok
          (processOrders (fun _ => none) [] "T" 1).1
          (processOrders (fun _ => none) [] "T" 1).2
        cacheAfter := some ⟨[], 5, "T"⟩
        didFetch := false } :=
  (ordersCache_ttl_spec (fun _ => true) (fun _ => none) [] [] (some ⟨[], 5, "T"⟩) 10 "T"
    (PriceParam.num 1) rfl
    (by rw [priceRejected, decide_eq_false_iff_not]; norm_num)).1
    ⟨[], 5, "T"⟩ rfl rfl (by rw [CACHE_TTL]; omega)

end Bagalytics
